import Mathlib

/-!
# Verification of the clipforge ffmpeg command/orchestration engine

Shallow embedding of the Rust sources under `src/src-tauri/src`:
the `FfmpegCommand` builder (`engine/builder.rs`), the merge transition
offset computation, the compression bitrate/CRF derivations, the progress
parser (`engine/progress.rs`), the task queue (`engine/queue.rs`), the
process termination handling (`engine/process.rs`) and the time format
helpers (`utils/time.rs`).

Modelling conventions:
* Rust `f64` values are modelled as `ℚ` (exact arithmetic).  Where the code
  relies on IEEE-754 special values (division by zero producing infinity,
  `f64::max` discarding NaN) the corresponding case split is made explicit
  in the Lean definition, with a comment pointing at the behaviour modelled.
* `as u32` / `as u64` / `as i64` casts of `f64` are Rust saturating casts:
  truncation toward zero, clamped into the target range (`satU32`, `satU64`,
  `satI64`).
* Machine-integer arithmetic that may overflow is reduced modulo `2 ^ 64`
  (release-mode wrapping semantics), written explicitly.
* `Instant`-based throttling is modelled by passing the current clock value
  (in milliseconds) to `parse_line` explicitly; `ProgressParser.new`
  initialises the last-emission clock to `-200` which models
  `Instant::now() - 200ms` for a parser born at clock `0`.
* Numeric string parsing (`str::parse::<i64/u64/f64>`) is modelled on the
  plain decimal fragment of the Rust grammar (optional sign, digits,
  optional fraction) which covers everything ffmpeg's progress stream and
  the timestamp format emit; exponent/infinity/NaN forms are not modelled.
-/

namespace Clipforge

/-! ## Saturating casts and rational helpers -/

/-- Truncation toward zero of a rational, the rounding used by Rust
`as`-casts from `f64` to integer types. -/
def truncQ (q : ℚ) : ℤ :=
  if q < 0 then -⌊-q⌋ else ⌊q⌋

/-- Rust `f64 as u32`: truncate toward zero, saturate into `[0, 2^32 - 1]`. -/
def satU32 (q : ℚ) : ℕ :=
  min (truncQ q).toNat 4294967295

/-- Rust `f64 as u64`: truncate toward zero, saturate into `[0, 2^64 - 1]`. -/
def satU64 (q : ℚ) : ℕ :=
  min (truncQ q).toNat 18446744073709551615

/-- Rust `f64 as i64`: truncate toward zero, saturate into the `i64` range. -/
def satI64 (q : ℚ) : ℤ :=
  max (-9223372036854775808) (min 9223372036854775807 (truncQ q))

/-- Wrapping `u64` multiplication (Rust release-mode overflow semantics). -/
def u64Mul (a b : ℕ) : ℕ :=
  a * b % 18446744073709551616

/-- Rust `f64 % f64` (`fmod`): `a - b * trunc (a / b)`. -/
def fmodQ (a b : ℚ) : ℚ :=
  a - b * truncQ (a / b)

/-- Rust `f64::max` on finite operands, written with an explicit `if` so
that it kernel-reduces on concrete rationals. -/
def fmaxQ (a b : ℚ) : ℚ :=
  if a < b then b else a

/-- Rust `f64::min` on finite operands. -/
def fminQ (a b : ℚ) : ℚ :=
  if b < a then b else a

/-- Rust `f64::clamp (lo, hi)` = `self.max(lo).min(hi)` for finite input. -/
def clampQ (x lo hi : ℚ) : ℚ :=
  fminQ (fmaxQ x lo) hi

lemma fmaxQ_eq_max (a b : ℚ) : fmaxQ a b = max a b := by
  unfold fmaxQ
  rcases lt_trichotomy a b with h | h | h
  · rw [if_pos h, max_eq_right h.le]
  · subst h; simp
  · rw [if_neg (not_lt.mpr h.le), max_eq_left h.le]

lemma fminQ_eq_min (a b : ℚ) : fminQ a b = min a b := by
  unfold fminQ
  rcases lt_trichotomy a b with h | h | h
  · rw [if_neg (not_lt.mpr h.le), min_eq_left h.le]
  · subst h; simp
  · rw [if_pos h, min_eq_right h.le]

/-! ## Decimal string parsing (model of `str::parse`) -/

/-- Is `c` an ASCII decimal digit? -/
def isDigitCh (c : Char) : Bool :=
  48 ≤ c.toNat && c.toNat ≤ 57

/-- Numeric value of the digit list, most significant digit first
(leading zeros allowed, as in Rust's integer parsing). -/
def digitsVal (cs : List Char) : ℕ :=
  cs.foldl (fun a c => a * 10 + (c.toNat - 48)) 0

/-- Model of `str::parse::<u64>` on a character list: optional `+` sign,
then one or more digits, value below `2 ^ 64`. -/
def parseU64? (cs : List Char) : Option ℕ :=
  let ds := if cs.headD ' ' = '+' then cs.tail else cs
  if ds ≠ [] ∧ ds.all isDigitCh ∧ digitsVal ds < 18446744073709551616 then
    some (digitsVal ds)
  else
    none

/-- Model of `str::parse::<i64>` on a character list: optional sign,
then one or more digits, value in the `i64` range. -/
def parseI64? (cs : List Char) : Option ℤ :=
  let neg := cs.headD ' ' = '-'
  let ds := if cs.headD ' ' = '-' ∨ cs.headD ' ' = '+' then cs.tail else cs
  if ds ≠ [] ∧ ds.all isDigitCh then
    let v : ℤ := if neg then -(digitsVal ds : ℤ) else (digitsVal ds : ℤ)
    if -9223372036854775808 ≤ v ∧ v ≤ 9223372036854775807 then some v else none
  else
    none

/-- Model of `str::parse::<f64>` on the plain decimal fragment:
optional sign, digits, optional `.` and fraction digits, at least one
digit overall.  This covers every numeric string ffmpeg's progress stream
and the `HH:MM:SS.mmm` timestamp format produce. -/
def parseF64? (cs : List Char) : Option ℚ :=
  let neg := cs.headD ' ' = '-'
  let body := if cs.headD ' ' = '-' ∨ cs.headD ' ' = '+' then cs.tail else cs
  let intPart := body.takeWhile (fun c => c ≠ '.')
  let rest := body.drop intPart.length
  let fracPart := rest.tail
  let ok :=
    intPart.all isDigitCh ∧ fracPart.all isDigitCh ∧
    (rest = [] ∨ rest.headD ' ' = '.') ∧ intPart ++ fracPart ≠ []
  if ok then
    let mag : ℚ := (digitsVal intPart : ℚ) + (digitsVal fracPart : ℚ) / 10 ^ fracPart.length
    some (if neg then -mag else mag)
  else
    none

/-! ## `FfmpegCommand` builder (`engine/builder.rs`, lines 22–196) -/

/-- The ffmpeg command builder state (`struct FfmpegCommand`). -/
structure FfmpegCommand where
  pre_args : List String
  inputs : List String
  post_args : List String
  video_filters : List String
  audio_filters : List String
  complex_filter : Option String
  output : String
deriving Repr, DecidableEq

namespace FfmpegCommand

/-- `FfmpegCommand::new`: defaults `-y -hide_banner`. -/
def new : FfmpegCommand :=
  { pre_args := ["-y", "-hide_banner"]
    inputs := []
    post_args := []
    video_filters := []
    audio_filters := []
    complex_filter := none
    output := "" }

/-- `FfmpegCommand::input`. -/
def input (c : FfmpegCommand) (path : String) : FfmpegCommand :=
  { c with inputs := c.inputs ++ [path] }

/-- `FfmpegCommand::pre_arg`. -/
def pre_arg (c : FfmpegCommand) (a : String) : FfmpegCommand :=
  { c with pre_args := c.pre_args ++ [a] }

/-- `FfmpegCommand::pre_args_pair`. -/
def pre_args_pair (c : FfmpegCommand) (k v : String) : FfmpegCommand :=
  { c with pre_args := c.pre_args ++ [k, v] }

/-- `FfmpegCommand::arg`. -/
def arg (c : FfmpegCommand) (a : String) : FfmpegCommand :=
  { c with post_args := c.post_args ++ [a] }

/-- `FfmpegCommand::args_pair`. -/
def args_pair (c : FfmpegCommand) (k v : String) : FfmpegCommand :=
  { c with post_args := c.post_args ++ [k, v] }

/-- `FfmpegCommand::video_codec`. -/
def video_codec (c : FfmpegCommand) (codec : String) : FfmpegCommand :=
  c.args_pair "-c:v" codec

/-- `FfmpegCommand::audio_codec`. -/
def audio_codec (c : FfmpegCommand) (codec : String) : FfmpegCommand :=
  c.args_pair "-c:a" codec

/-- `FfmpegCommand::crf`. -/
def crf (c : FfmpegCommand) (value : ℕ) : FfmpegCommand :=
  c.args_pair "-crf" (toString value)

/-- `FfmpegCommand::preset`. -/
def preset (c : FfmpegCommand) (p : String) : FfmpegCommand :=
  c.args_pair "-preset" p

/-- `FfmpegCommand::audio_bitrate`. -/
def audio_bitrate (c : FfmpegCommand) (b : String) : FfmpegCommand :=
  c.args_pair "-b:a" b

/-- `FfmpegCommand::video_bitrate`. -/
def video_bitrate (c : FfmpegCommand) (b : String) : FfmpegCommand :=
  c.args_pair "-b:v" b

/-- `FfmpegCommand::video_filter`. -/
def video_filter (c : FfmpegCommand) (f : String) : FfmpegCommand :=
  { c with video_filters := c.video_filters ++ [f] }

/-- `FfmpegCommand::audio_filter`. -/
def audio_filter (c : FfmpegCommand) (f : String) : FfmpegCommand :=
  { c with audio_filters := c.audio_filters ++ [f] }

/-- `FfmpegCommand::complex_filter` (setter; named apart from the field). -/
def set_complex_filter (c : FfmpegCommand) (f : String) : FfmpegCommand :=
  { c with complex_filter := some f }

/-- `FfmpegCommand::output` (setter; named apart from the field). -/
def set_output (c : FfmpegCommand) (path : String) : FfmpegCommand :=
  { c with output := path }

/-- `FfmpegCommand::with_progress`: `-progress pipe:1 -nostats`. -/
def with_progress (c : FfmpegCommand) : FfmpegCommand :=
  (c.pre_args_pair "-progress" "pipe:1").pre_arg "-nostats"

/-- `FfmpegCommand::faststart`: `-movflags +faststart`. -/
def faststart (c : FfmpegCommand) : FfmpegCommand :=
  c.args_pair "-movflags" "+faststart"

/-- `FfmpegCommand::build` (lines 157–195): pre args, then `-i` pairs in a
loop, then post args, then `-filter_complex` if set else `-vf` / `-af`
joined with commas, then the output path if nonempty. -/
def build (c : FfmpegCommand) : List String :=
  let result := c.pre_args
  let result := c.inputs.foldl (fun acc inp => acc ++ ["-i", inp]) result
  let result := result ++ c.post_args
  let result :=
    match c.complex_filter with
    | some cf => result ++ ["-filter_complex", cf]
    | none =>
      let r := if c.video_filters ≠ [] then
          result ++ ["-vf", String.intercalate "," c.video_filters] else result
      if c.audio_filters ≠ [] then
        r ++ ["-af", String.intercalate "," c.audio_filters] else r
  if c.output ≠ "" then result ++ [c.output] else result

end FfmpegCommand

/-! ### Spec-side serialization zones.

These definitions follow the spec's words ("five logical zones …
serialized in a fixed order; complex-filter wins") and are compared with
the source-derived `FfmpegCommand.build` above. -/

/-- Spec zone 1: all pre-input global flags. -/
def preInputZone (c : FfmpegCommand) : List String :=
  c.pre_args

/-- Spec zone 2: a `-i <path>` pair per input, in insertion order. -/
def inputZone (c : FfmpegCommand) : List String :=
  c.inputs.flatMap fun p => ["-i", p]

/-- Spec zone 3: all post-input output flags. -/
def outputFlagsZone (c : FfmpegCommand) : List String :=
  c.post_args

/-- Spec zone 4: the filter specification; a complex filter wins over
the simple `-vf`/`-af` chains when both are set. -/
def filterZone (c : FfmpegCommand) : List String :=
  match c.complex_filter with
  | some cf => ["-filter_complex", cf]
  | none =>
    (if c.video_filters ≠ [] then
      ["-vf", String.intercalate "," c.video_filters] else []) ++
    (if c.audio_filters ≠ [] then
      ["-af", String.intercalate "," c.audio_filters] else [])

/-- Spec zone 5: the output path, appended only when nonempty. -/
def outputPathZone (c : FfmpegCommand) : List String :=
  if c.output = "" then [] else [c.output]

lemma foldl_i_pairs (l : List String) (acc : List String) :
    l.foldl (fun acc inp => acc ++ ["-i", inp]) acc
      = acc ++ l.flatMap fun p => ["-i", p] := by
  induction l generalizing acc with
  | nil => simp
  | cons x xs ih => simp [List.foldl_cons, ih, List.flatMap_cons]

/-- C1.  Every built token list is the concatenation of the five spec
zones in their fixed order — pre-input global flags, `-i <path>` pairs in
insertion order, post-input output flags, the filter specification, the
output path (only when nonempty) — and whenever a complex filter is set
the filter zone is exactly `-filter_complex <graph>`, omitting the
`-vf`/`-af` chains even when simple filter chains are also set. -/
theorem build_serializes_in_zone_order (c : FfmpegCommand) :
    c.build = preInputZone c ++ inputZone c ++ outputFlagsZone c ++
      filterZone c ++ outputPathZone c ∧
    (∀ f, c.complex_filter = some f → filterZone c = ["-filter_complex", f]) := by
  constructor
  · unfold FfmpegCommand.build preInputZone inputZone outputFlagsZone
      filterZone outputPathZone
    simp only [foldl_i_pairs]
    cases c.complex_filter with
    | some cf => by_cases h : c.output = "" <;> simp [h]
    | none =>
      by_cases hv : c.video_filters = [] <;>
        by_cases ha : c.audio_filters = [] <;>
        by_cases h : c.output = "" <;>
        simp [hv, ha, h]
  · intro f hf
    unfold filterZone
    rw [hf]

/-- Witness for C1 at a concrete builder state that has both a complex
filter and simple filter chains set: the complex filter wins. -/
theorem build_serializes_in_zone_order_witness :
    filterZone
      { pre_args := ["-y"], inputs := ["in.mp4"], post_args := []
        video_filters := ["scale=1:1"], audio_filters := ["volume=2"]
        complex_filter := some "[0:v]split[a][b]", output := "out.mp4" }
      = ["-filter_complex", "[0:v]split[a][b]"] :=
  (build_serializes_in_zone_order _).2 _ rfl

/-! ## Merge transition offsets (`build_merge_command`, lines 510–557)

The xfade filter-graph string interpolates the numeric offsets verbatim;
the graph structure is modelled by the list of offsets embedded in the
chain of xfade stages, in chain order. -/

/-- The offset list computed by the loop
`for i in 0..n.saturating_sub(1)`:
`offset[i] = max 0 (sum (durations.take (i+1)) - (i+1) * trans_dur)`. -/
def mergeOffsets (durations : List ℚ) (trans_dur : ℚ) (n : ℕ) : List ℚ :=
  (List.range (n - 1)).map fun i =>
    fmaxQ (((durations.take (i + 1)).sum) - ((i : ℚ) + 1) * trans_dur) 0

/-- The offsets embedded, in order, in the generated xfade chain: the
first xfade (`[v0][v1]…`, emitted when `n ≥ 2`) uses
`offsets.get(0).unwrap_or(0)`, and the stage for input `i` (loop
`for i in 2..n`) uses `offsets.get(i-1).unwrap_or(0)`. -/
def xfadeChainOffsets (n : ℕ) (offsets : List ℚ) : List ℚ :=
  (if 2 ≤ n then [offsets.getD 0 0] else []) ++
    (List.range' 2 (n - 2)).map fun i => offsets.getD (i - 1) 0

/-- C2.  For a merge of `n ≥ 2` clips with transition duration `t`, the
offset embedded in the `i`-th crossfade of the generated xfade chain
(`0 ≤ i ≤ n - 2`) equals
`max 0 (d₀ + … + dᵢ − (i+1)·t)`. -/
theorem xfade_offset_formula (durations : List ℚ) (t : ℚ) (n i : ℕ)
    (hn : 2 ≤ n) (hi : i ≤ n - 2) :
    (xfadeChainOffsets n (mergeOffsets durations t n)).getD i 0 =
      max 0 (((durations.take (i + 1)).sum) - ((i : ℚ) + 1) * t) := by
  have hmem : i < n - 1 := by omega
  have hchain :
      (xfadeChainOffsets n (mergeOffsets durations t n)).getD i 0 =
        (mergeOffsets durations t n).getD i 0 := by
    unfold xfadeChainOffsets
    rw [if_pos hn]
    cases i with
    | zero => rfl
    | succ j =>
      have hj : j < n - 2 := by omega
      rw [List.getD_append_right _ _ _ _ (by simp)]
      simp only [List.length_singleton, Nat.add_sub_cancel]
      rw [List.getD_eq_getElem?_getD, List.getElem?_map,
        List.getElem?_range' 2 1 hj]
      simp only [Option.map_some', Option.getD_some]
      have harg : 2 + 1 * j - 1 = j + 1 := by omega
      rw [harg]
  rw [hchain]
  unfold mergeOffsets
  rw [List.getD_eq_getElem?_getD, List.getElem?_map, List.getElem?_range hmem]
  simp [fmaxQ_eq_max, max_comm]

/-- Witness for C2: three clips of durations `[10, 8, 6]` and a
1-second transition; the second crossfade (`i = 1`) carries offset
`max 0 ((10 + 8) - 2·1)`. -/
theorem xfade_offset_formula_witness :
    (xfadeChainOffsets 3 (mergeOffsets [10, 8, 6] 1 3)).getD 1 0 =
      max 0 (((([10, 8, 6] : List ℚ).take 2).sum) - ((1 : ℚ) + 1) * 1) :=
  xfade_offset_formula [10, 8, 6] 1 3 1 (by decide) (by decide)

/-- C3 counterexample.  Merging three clips of durations `[10, 8, 6]`
seconds with a 1-second transition embeds the offsets `[9, 16]` in the
xfade chain, not `[9, 15]` as the claim states: the second crossfade
starts at `(10 + 8) − 2·1 = 16` seconds. -/
theorem merge_3clips_offsets_not_9_15 :
    xfadeChainOffsets 3 (mergeOffsets [10, 8, 6] 1 3) ≠ [9, 15] ∧
    xfadeChainOffsets 3 (mergeOffsets [10, 8, 6] 1 3) = [9, 16] := by
  constructor <;>
    norm_num [xfadeChainOffsets, mergeOffsets, fmaxQ, List.range_succ]

/-- C3 amended.  Merging three clips of durations `[10, 8, 6]` with a
1-second transition produces the transition offsets `[9, 16]`
(two crossfades; `9 = 10 − 1`, `16 = (10 + 8) − 2·1`). -/
theorem merge_3clips_offsets :
    xfadeChainOffsets 3 (mergeOffsets [10, 8, 6] 1 3) = [9, 16] := by
  norm_num [xfadeChainOffsets, mergeOffsets, fmaxQ, List.range_succ]

/-! ## Compression (`build_compress_command`, lines 279–349, and the
CRF helpers, lines 1043–1066) -/

/-- `enum CompressMode` (`models/preset.rs`). -/
inductive CompressMode where
  | BySize
  | ByRatio
  | ByQuality
deriving Repr, DecidableEq

/-- `struct CompressParams` (`models/preset.rs`); `f64` fields as `ℚ`. -/
structure CompressParams where
  input_path : String
  output_path : String
  mode : CompressMode
  target_size_mb : Option ℚ
  compress_ratio : Option ℚ
  quality_level : Option ℕ
  preset : Option String
  hardware_accel : Option Bool

/-- `quality_level_to_crf`: clamp the level into `[1, 10]`,
`34 - (clamped - 1) * 2`. -/
def quality_level_to_crf (level : ℕ) : ℕ :=
  let clamped := min (max level 1) 10
  34 - (clamped - 1) * 2

/-- `quality_level_to_vt_q`: clamp into `[1, 10]`,
`30 + (clamped - 1) * 55 / 9` in `u32` arithmetic. -/
def quality_level_to_vt_q (level : ℕ) : ℕ :=
  let clamped := min (max level 1) 10
  30 + (clamped - 1) * 55 / 9

/-- `ratio_to_crf` (lines 1061–1066): clamp the ratio into `[0.1, 1.0]`,
then `(16.0 + (1.0 - clamped) * 20.0) as u32`. -/
def ratio_to_crf (ratio : ℚ) : ℕ :=
  let clamped := clampQ ratio (1/10) 1
  satU32 (16 + (1 - clamped) * 20)

/-- The `BySize` bitrate (lines 296–299 / 322–325):
`video_kbps = target_mb * 1024.0 * 8.0 / input_duration - 128.0`, then
`video_kbps.max(100.0) as u64`.  The `input_duration = 0` branch spells
out the IEEE-754 behaviour of the source's `f64` arithmetic: a positive
target gives `+∞` (the `as u64` cast saturates at `2^64 - 1`), a zero
target gives NaN and a negative target `-∞`, both of which `f64::max`
replaces by `100.0`. -/
def sizeVideoKbps (target_mb input_duration : ℚ) : ℕ :=
  if input_duration = 0 then
    (if 0 < target_mb then 18446744073709551615 else 100)
  else satU64 (fmaxQ (target_mb * 1024 * 8 / input_duration - 128) 100)

/-- `build_compress_command` (lines 279–349). -/
def build_compress_command (params : CompressParams) (input_duration : ℚ)
    (input_bitrate : ℕ) : List String :=
  let cmd := (FfmpegCommand.new.with_progress).input params.input_path
  let preset := params.preset.getD "medium"
  let cmd :=
    if params.hardware_accel.getD false then
      let cmd := cmd.video_codec "h264_videotoolbox"
      match params.mode with
      | CompressMode.BySize =>
        let target_mb := params.target_size_mb.getD 50
        let video_kbps := sizeVideoKbps target_mb input_duration
        cmd.video_bitrate (toString video_kbps ++ "k")
      | CompressMode.ByRatio =>
        let ratio := params.compress_ratio.getD (1/2)
        let target_bps := satU64 ((input_bitrate : ℚ) * ratio)
        let target_kbps := target_bps / 1000
        cmd.video_bitrate (toString (max target_kbps 100) ++ "k")
      | CompressMode.ByQuality =>
        let level := params.quality_level.getD 5
        cmd.args_pair "-q:v" (toString (quality_level_to_vt_q level))
    else
      let cmd := (cmd.video_codec "libx264").preset preset
      match params.mode with
      | CompressMode.BySize =>
        let target_mb := params.target_size_mb.getD 50
        let video_kbps := sizeVideoKbps target_mb input_duration
        (((cmd.video_bitrate (toString video_kbps ++ "k")).args_pair
            "-maxrate" (toString (u64Mul video_kbps 15 / 10) ++ "k")).args_pair
          "-bufsize" (toString (u64Mul video_kbps 2) ++ "k"))
      | CompressMode.ByRatio =>
        let ratio := params.compress_ratio.getD (1/2)
        cmd.crf (ratio_to_crf ratio)
      | CompressMode.ByQuality =>
        let level := params.quality_level.getD 5
        cmd.crf (quality_level_to_crf level)
  let cmd := ((cmd.audio_codec "aac").audio_bitrate "128k").faststart
  (cmd.set_output params.output_path).build

/-- Spec-side size-targeted bitrate formula, in exact arithmetic:
`max(100, target_MB × 8192 / duration − 128)`. -/
def specSizeVideoKbps (target_mb d : ℚ) : ℚ :=
  max 100 (target_mb * 8192 / d - 128)

/-- Spec-side ratio CRF formula: `16 + (1 − ratio) × 20` with the ratio
clamped into `[0.1, 1.0]`. -/
def specRatioCrf (ratio : ℚ) : ℚ :=
  16 + (1 - min 1 (max (1/10) ratio)) * 20

lemma truncQ_eq_floor_of_nonneg {q : ℚ} (h : 0 ≤ q) : truncQ q = ⌊q⌋ := by
  unfold truncQ
  rw [if_neg (not_lt.mpr h)]

/-- C4 (amended).  For every size-targeted compression request — in
both encoding paths — the emitted `-b:v` bitrate is the computed `k`:
the software command carries `-b:v <k>k -maxrate <k*15/10>k -bufsize
<k*2>k` and the hardware command `-b:v <k>k`; for nonzero duration `k`
is the spec formula `max(100, target_MB × 8192 / d − 128)` truncated to
an integer and saturated into `u64`; and for every duration — including
`d = 0`, where the `f64` division yields `+∞` and the cast saturates —
the bitrate is never below the documented 100 kbps minimum. -/
theorem compress_by_size_command (p : CompressParams) (d : ℚ) (br : ℕ)
    (hmode : p.mode = CompressMode.BySize) :
    (p.hardware_accel.getD false = false →
      build_compress_command p d br =
        ["-y", "-hide_banner", "-progress", "pipe:1", "-nostats",
          "-i", p.input_path, "-c:v", "libx264", "-preset", p.preset.getD "medium",
          "-b:v", toString (sizeVideoKbps (p.target_size_mb.getD 50) d) ++ "k",
          "-maxrate",
          toString (u64Mul (sizeVideoKbps (p.target_size_mb.getD 50) d) 15 / 10) ++ "k",
          "-bufsize",
          toString (u64Mul (sizeVideoKbps (p.target_size_mb.getD 50) d) 2) ++ "k",
          "-c:a", "aac", "-b:a", "128k", "-movflags", "+faststart"] ++
          (if p.output_path = "" then [] else [p.output_path])) ∧
    (p.hardware_accel.getD false = true →
      build_compress_command p d br =
        ["-y", "-hide_banner", "-progress", "pipe:1", "-nostats",
          "-i", p.input_path, "-c:v", "h264_videotoolbox",
          "-b:v", toString (sizeVideoKbps (p.target_size_mb.getD 50) d) ++ "k",
          "-c:a", "aac", "-b:a", "128k", "-movflags", "+faststart"] ++
          (if p.output_path = "" then [] else [p.output_path])) ∧
    (d ≠ 0 → sizeVideoKbps (p.target_size_mb.getD 50) d =
      min ⌊specSizeVideoKbps (p.target_size_mb.getD 50) d⌋.toNat
        18446744073709551615) ∧
    100 ≤ sizeVideoKbps (p.target_size_mb.getD 50) d := by
  obtain ⟨ip, op, mode, tmb, cr, ql, pr, hw⟩ := p
  simp only at hmode ⊢
  subst hmode
  refine ⟨?_, ?_, ?_, ?_⟩
  · intro hsw
    simp only [build_compress_command, hsw, if_false, Bool.false_eq_true]
    by_cases hop : op = "" <;>
      simp [hop, FfmpegCommand.new, FfmpegCommand.with_progress,
        FfmpegCommand.pre_args_pair, FfmpegCommand.pre_arg, FfmpegCommand.input,
        FfmpegCommand.video_codec, FfmpegCommand.preset, FfmpegCommand.args_pair,
        FfmpegCommand.video_bitrate, FfmpegCommand.audio_codec,
        FfmpegCommand.audio_bitrate, FfmpegCommand.faststart,
        FfmpegCommand.set_output, FfmpegCommand.build]
  · intro hhw
    simp only [build_compress_command, hhw, eq_self_iff_true, if_true]
    by_cases hop : op = "" <;>
      simp [hop, FfmpegCommand.new, FfmpegCommand.with_progress,
        FfmpegCommand.pre_args_pair, FfmpegCommand.pre_arg, FfmpegCommand.input,
        FfmpegCommand.video_codec, FfmpegCommand.preset, FfmpegCommand.args_pair,
        FfmpegCommand.video_bitrate, FfmpegCommand.audio_codec,
        FfmpegCommand.audio_bitrate, FfmpegCommand.faststart,
        FfmpegCommand.set_output, FfmpegCommand.build]
  · intro hd
    have harith : (tmb.getD 50) * 1024 * 8 / d - 128 = (tmb.getD 50) * 8192 / d - 128 := by
      ring_nf
    have hnn : (0 : ℚ) ≤ fmaxQ ((tmb.getD 50) * 1024 * 8 / d - 128) 100 := by
      rw [fmaxQ_eq_max]
      exact le_trans (by norm_num) (le_max_right _ _)
    simp only [sizeVideoKbps, if_neg hd, satU64]
    rw [truncQ_eq_floor_of_nonneg hnn, fmaxQ_eq_max, max_comm, harith]
    rfl
  · by_cases hd : d = 0
    · simp only [sizeVideoKbps, if_pos hd]
      by_cases htm : (0 : ℚ) < tmb.getD 50 <;> simp [htm]
    · simp only [sizeVideoKbps, if_neg hd, satU64]
      have h100 : (100 : ℚ) ≤ fmaxQ ((tmb.getD 50) * 1024 * 8 / d - 128) 100 := by
        rw [fmaxQ_eq_max]; exact le_max_right _ _
      have hfl : (100 : ℤ) ≤ ⌊fmaxQ ((tmb.getD 50) * 1024 * 8 / d - 128) 100⌋ := by
        rw [Int.le_floor]; exact_mod_cast h100
      have hnn : (0 : ℚ) ≤ fmaxQ ((tmb.getD 50) * 1024 * 8 / d - 128) 100 :=
        le_trans (by norm_num) h100
      rw [truncQ_eq_floor_of_nonneg hnn]
      refine le_min ?_ (by norm_num)
      have := Int.toNat_le_toNat hfl
      simpa using this

/-- Witness for C4 at `target_size_mb = 229 MB`, `duration = 8192 s`:
the software and the hardware command, the truncated spec formula, and
the 100 kbps floor, all instantiated concretely. -/
theorem compress_by_size_command_witness :
    (8192 : ℚ) ≠ 0 ∧
    build_compress_command
        ⟨"in.mp4", "out.mp4", CompressMode.BySize, some 229, none, none, none, none⟩
        8192 0 =
      ["-y", "-hide_banner", "-progress", "pipe:1", "-nostats",
        "-i", "in.mp4", "-c:v", "libx264", "-preset", "medium",
        "-b:v", toString (sizeVideoKbps 229 8192) ++ "k",
        "-maxrate", toString (u64Mul (sizeVideoKbps 229 8192) 15 / 10) ++ "k",
        "-bufsize", toString (u64Mul (sizeVideoKbps 229 8192) 2) ++ "k",
        "-c:a", "aac", "-b:a", "128k", "-movflags", "+faststart", "out.mp4"] ∧
    build_compress_command
        ⟨"in.mp4", "out.mp4", CompressMode.BySize, some 229, none, none, none,
          some true⟩ 8192 0 =
      ["-y", "-hide_banner", "-progress", "pipe:1", "-nostats",
        "-i", "in.mp4", "-c:v", "h264_videotoolbox",
        "-b:v", toString (sizeVideoKbps 229 8192) ++ "k",
        "-c:a", "aac", "-b:a", "128k", "-movflags", "+faststart", "out.mp4"] ∧
    sizeVideoKbps (229 : ℚ) 8192 =
      min ⌊specSizeVideoKbps (229 : ℚ) 8192⌋.toNat 18446744073709551615 ∧
    100 ≤ sizeVideoKbps (229 : ℚ) 8192 :=
  ⟨by norm_num,
    (compress_by_size_command
        ⟨"in.mp4", "out.mp4", CompressMode.BySize, some 229, none, none, none, none⟩
        8192 0 rfl).1 rfl,
    (compress_by_size_command
        ⟨"in.mp4", "out.mp4", CompressMode.BySize, some 229, none, none, none,
          some true⟩ 8192 0 rfl).2.1 rfl,
    (compress_by_size_command
        ⟨"in.mp4", "out.mp4", CompressMode.BySize, some 229, none, none, none, none⟩
        8192 0 rfl).2.2.1 (by norm_num),
    (compress_by_size_command
        ⟨"in.mp4", "out.mp4", CompressMode.BySize, some 229, none, none, none, none⟩
        8192 0 rfl).2.2.2⟩

/-- C4 counterexample.  With `target_MB = 229` and `d = 8192` the
computed bitrate is exactly 101 kbps, and the emitted max-rate is
`101 * 15 / 10 = 151` kbps in `u64` arithmetic — not the claim's
`1.5 × 101 = 151.5`: the emitted max-rate is `⌊1.5 ×⌋`, not `1.5 ×`. -/
theorem compress_by_size_maxrate_not_exact :
    sizeVideoKbps 229 8192 = 101 ∧
    u64Mul (sizeVideoKbps 229 8192) 15 / 10 = 151 ∧
    ¬ ((151 : ℚ) = (3 / 2) * 101) := by
  have h : sizeVideoKbps 229 8192 = 101 := by
    norm_num [sizeVideoKbps, satU64, truncQ, fmaxQ]
    decide
  refine ⟨h, ?_, by norm_num⟩
  rw [h]
  decide

/-- C5 (amended).  In software mode with `ByRatio`, the built command
carries `-crf <c>` where `c = ratio_to_crf ratio`; for every ratio the
emitted CRF is the spec formula `16 + (1 − ratio) × 20` (ratio clamped
into `[0.1, 1.0]`) truncated to an integer; and `ratio = 0.5` gives
exactly CRF 26.  The final conjunct is end-to-end scenario 1: ratio 0.5
against a source of bitrate 0 and duration 100 s crashes nowhere and
produces `-crf 26`. -/
theorem compress_by_ratio_command (p : CompressParams) (d : ℚ) (br : ℕ)
    (hmode : p.mode = CompressMode.ByRatio)
    (hsw : p.hardware_accel.getD false = false) :
    (build_compress_command p d br =
      ["-y", "-hide_banner", "-progress", "pipe:1", "-nostats",
        "-i", p.input_path, "-c:v", "libx264", "-preset", p.preset.getD "medium",
        "-crf", toString (ratio_to_crf (p.compress_ratio.getD (1/2))),
        "-c:a", "aac", "-b:a", "128k", "-movflags", "+faststart"] ++
        (if p.output_path = "" then [] else [p.output_path])) ∧
    (∀ r : ℚ, ratio_to_crf r = ⌊specRatioCrf r⌋.toNat) ∧
    ratio_to_crf (1/2) = 26 ∧
    build_compress_command
        ⟨"src.mp4", "dst.mp4", CompressMode.ByRatio, none, some (1/2), none,
          none, none⟩ 100 0 =
      ["-y", "-hide_banner", "-progress", "pipe:1", "-nostats",
        "-i", "src.mp4", "-c:v", "libx264", "-preset", "medium",
        "-crf", "26", "-c:a", "aac", "-b:a", "128k", "-movflags", "+faststart",
        "dst.mp4"] := by
  have hcrf : ∀ r : ℚ, ratio_to_crf r = ⌊specRatioCrf r⌋.toNat := by
    intro r
    have hclamp : clampQ r (1/10) 1 = min 1 (max (1/10) r) := by
      rw [clampQ, fminQ_eq_min, fmaxQ_eq_max, min_comm, max_comm]
    have hle : min 1 (max (1/10) r) ≤ 1 := min_le_left _ _
    have hge : (1/10 : ℚ) ≤ min 1 (max (1/10) r) :=
      le_min (by norm_num) (le_max_left _ _)
    have hlo : (16 : ℚ) ≤ specRatioCrf r := by
      unfold specRatioCrf
      nlinarith
    have hnn : (0 : ℚ) ≤ specRatioCrf r := le_trans (by norm_num) hlo
    have hhi : specRatioCrf r ≤ 34 := by
      unfold specRatioCrf
      nlinarith
    have hfl : ⌊specRatioCrf r⌋ ≤ 34 := by
      calc ⌊specRatioCrf r⌋ ≤ ⌊(34 : ℚ)⌋ := Int.floor_le_floor hhi
      _ = 34 := by norm_num
    rw [ratio_to_crf, satU32, hclamp]
    show min (truncQ (specRatioCrf r)).toNat 4294967295 = _
    rw [truncQ_eq_floor_of_nonneg hnn]
    refine Nat.min_eq_left ?_
    calc ⌊specRatioCrf r⌋.toNat ≤ (34 : ℤ).toNat := Int.toNat_le_toNat hfl
    _ ≤ 4294967295 := by decide
  have h26 : ratio_to_crf (1/2) = 26 := by
    rw [hcrf]
    norm_num [specRatioCrf]
    decide
  refine ⟨?_, hcrf, h26, ?_⟩
  · obtain ⟨ip, op, mode, tmb, cr, ql, pr, hw⟩ := p
    simp only at hmode hsw ⊢
    subst hmode
    simp only [build_compress_command, hsw, if_false, Bool.false_eq_true]
    by_cases hop : op = "" <;>
      simp [hop, FfmpegCommand.new, FfmpegCommand.with_progress,
        FfmpegCommand.pre_args_pair, FfmpegCommand.pre_arg, FfmpegCommand.input,
        FfmpegCommand.video_codec, FfmpegCommand.preset, FfmpegCommand.args_pair,
        FfmpegCommand.crf, FfmpegCommand.audio_codec,
        FfmpegCommand.audio_bitrate, FfmpegCommand.faststart,
        FfmpegCommand.set_output, FfmpegCommand.build]
  · simp only [build_compress_command]
    norm_num [h26]
    simp [FfmpegCommand.new, FfmpegCommand.with_progress,
      FfmpegCommand.pre_args_pair, FfmpegCommand.pre_arg, FfmpegCommand.input,
      FfmpegCommand.video_codec, FfmpegCommand.preset, FfmpegCommand.args_pair,
      FfmpegCommand.crf, FfmpegCommand.audio_codec,
      FfmpegCommand.audio_bitrate, FfmpegCommand.faststart,
      FfmpegCommand.set_output, FfmpegCommand.build]
    rfl

/-- Witness for C5: the spec-formula characterization and the concrete
scenario instantiated at ratio `0.5`, duration `100`, bitrate `0`. -/
theorem compress_by_ratio_command_witness :
    ratio_to_crf (1/2) = ⌊specRatioCrf (1/2)⌋.toNat ∧ ratio_to_crf (1/2) = 26 :=
  ⟨(compress_by_ratio_command
      ⟨"src.mp4", "dst.mp4", CompressMode.ByRatio, none, some (1/2), none, none, none⟩
      100 0 rfl rfl).2.1 (1/2),
    (compress_by_ratio_command
      ⟨"src.mp4", "dst.mp4", CompressMode.ByRatio, none, some (1/2), none, none, none⟩
      100 0 rfl rfl).2.2.1⟩

/-- C5 counterexample.  At ratio `0.375` (exactly representable in
`f64`) the code emits CRF 28 while the claim's formula
`16 + (1 − 0.375) × 20 = 28.5` is not an integer: the emitted CRF is the
truncation of the formula, not the formula itself. -/
theorem compress_by_ratio_crf_not_exact :
    ratio_to_crf (3/8) = 28 ∧
    ¬ ((ratio_to_crf (3/8) : ℚ) = 16 + (1 - 3/8) * 20) := by
  have h : ratio_to_crf (3/8) = 28 := by
    norm_num [ratio_to_crf, clampQ, fminQ, fmaxQ, satU32, truncQ]
    decide
  refine ⟨h, ?_⟩
  rw [h]
  norm_num

/-! ## Progress parser (`engine/progress.rs`)

Lines are modelled as `List Char`; the key/value store
(`HashMap<String, String>`) as an association list with replace-on-insert;
`Instant`-based throttling by an explicit clock argument in
milliseconds. -/

/-- Rust `str::trim` on a character list: drop whitespace from both
ends. -/
def trimWs (cs : List Char) : List Char :=
  ((cs.dropWhile Char.isWhitespace).reverse.dropWhile Char.isWhitespace).reverse

/-- `trimmed.find('=')` and the split into `trimmed[..eq]` /
`trimmed[eq+1..]`: `none` when the line carries no `=`. -/
def splitEq? (cs : List Char) : Option (List Char × List Char) :=
  let pre := cs.takeWhile fun c => c ≠ '='
  if pre.length = cs.length then none else some (pre, cs.drop (pre.length + 1))

/-- `HashMap::insert`: replace any existing binding of the key. -/
def insertKV (m : List (List Char × List Char)) (k v : List Char) :
    List (List Char × List Char) :=
  (k, v) :: m.filter fun p => p.1 ≠ k

/-- `HashMap::get`. -/
def lookupKV (m : List (List Char × List Char)) (k : List Char) :
    Option (List Char) :=
  (m.find? fun p => p.1 = k).map fun p => p.2

/-- `str::trim_end_matches('x')`: strip every trailing `x`. -/
def trimEndX (cs : List Char) : List Char :=
  (cs.reverse.dropWhile fun c => c = 'x').reverse

/-- `utils/time.rs::microseconds_to_seconds`. -/
def microseconds_to_seconds (microseconds : ℤ) : ℚ :=
  (microseconds : ℚ) / 1000000

/-- `struct ProgressUpdate` (`models/task.rs`). -/
structure ProgressUpdate where
  task_id : String
  percent : ℚ
  speed : ℚ
  current_time : ℚ
  eta : ℚ
  output_size : ℕ
  frame : ℕ
  fps : ℚ

/-- `struct ProgressParser` state.  `last_emit_time` is the clock value
(ms) of the last emission. -/
structure ProgressParser where
  total_duration_us : ℤ
  task_id : String
  last_emit_time : ℤ
  current_values : List (List Char × List Char)

/-- `ProgressParser::new`: `total_duration * 1_000_000.0 as i64`; the
last-emission clock starts at `-200` (i.e. `Instant::now() - 200ms` for
a parser created at clock `0`), so the first burst passes the
throttle. -/
def ProgressParser.new (total_duration : ℚ) (task_id : String) : ProgressParser :=
  { total_duration_us := satI64 (total_duration * 1000000)
    task_id := task_id
    last_emit_time := -200
    current_values := [] }

/-- The parsed `out_time_us` value: `get("out_time_us")`,
`parse::<i64>().ok()`, `unwrap_or(0)` (lines 123–127). -/
def outTimeUs (st : ProgressParser) : ℤ :=
  ((lookupKV st.current_values "out_time_us".toList).bind parseI64?).getD 0

/-- The parsed speed multiplier: `get("speed")`,
`trim_end_matches('x').parse::<f64>().ok()`, `unwrap_or(0.0)`
(lines 140–144). -/
def speedVal (st : ProgressParser) : ℚ :=
  ((lookupKV st.current_values "speed".toList).bind fun v =>
    parseF64? (trimEndX v)).getD 0

/-- `ProgressParser::build_progress_update` (lines 121–186). -/
def build_progress_update (st : ProgressParser) : Option ProgressUpdate :=
  let out_time_us := outTimeUs st
  let percent :=
    if 0 < st.total_duration_us then
      fminQ ((out_time_us : ℚ) / (st.total_duration_us : ℚ) * 100) 100
    else 0
  let current_time := microseconds_to_seconds out_time_us
  let speed := speedVal st
  let total_duration_secs := microseconds_to_seconds st.total_duration_us
  let remaining_time := total_duration_secs - current_time
  let eta := if 0 < speed then fmaxQ (remaining_time / speed) 0 else 0
  let output_size :=
    ((lookupKV st.current_values "total_size".toList).bind parseU64?).getD 0
  let frame :=
    ((lookupKV st.current_values "frame".toList).bind parseU64?).getD 0
  let fps :=
    ((lookupKV st.current_values "fps".toList).bind fun v =>
      parseF64? v).getD 0
  some
    { task_id := st.task_id
      percent := percent
      speed := speed
      current_time := current_time
      eta := eta
      output_size := output_size
      frame := frame
      fps := fps }

/-- `ProgressParser::parse_line` (lines 74–106), state-passing form;
`now` is the current clock in milliseconds.  Returns the optional
snapshot and the successor state. -/
def parse_line (st : ProgressParser) (line : List Char) (now : ℤ) :
    Option ProgressUpdate × ProgressParser :=
  let trimmed := trimWs line
  if trimmed = [] then (none, st)
  else
    match splitEq? trimmed with
    | none => (none, st)
    | some (k, v) =>
      let key := trimWs k
      let value := trimWs v
      if key = "progress".toList then
        let result := build_progress_update st
        let st := { st with current_values := [] }
        if 200 ≤ now - st.last_emit_time then
          (result, { st with last_emit_time := now })
        else if value = "end".toList then (result, st)
        else (none, st)
      else (none, { st with current_values := insertKV st.current_values key value })

/-- C6.  Every burst boundary yields a snapshot record (never a crash)
whose percent is `out_time_us / total_duration_us × 100` clamped to 100
(0 when the total duration is 0 or the `out_time_us` key is absent),
whose current time is `out_time_us / 10⁶` seconds, whose speed is parsed
from the `x`-suffixed value, and whose ETA is
`(total − processed) / speed` clamped to `≥ 0`, or 0 when the speed is 0
or unparseable; and the burst `out_time_us=5000000`, `speed=2.0x`,
`progress=continue` against a 20-second total yields percent 25,
current time 5, eta 7.5. -/
theorem progress_burst_formulas :
    (∀ st : ProgressParser, (build_progress_update st).isSome = true) ∧
    (∀ (st : ProgressParser) (u : ProgressUpdate),
      build_progress_update st = some u →
      (0 < st.total_duration_us →
        u.percent = min 100 ((outTimeUs st : ℚ) / (st.total_duration_us : ℚ) * 100)) ∧
      (st.total_duration_us = 0 → u.percent = 0) ∧
      (lookupKV st.current_values "out_time_us".toList = none →
        u.percent = 0 ∧ u.current_time = 0) ∧
      u.current_time = (outTimeUs st : ℚ) / 1000000 ∧
      u.speed = speedVal st ∧
      (0 < u.speed →
        u.eta = max 0
          ((microseconds_to_seconds st.total_duration_us - u.current_time) / u.speed)) ∧
      (u.speed ≤ 0 → u.eta = 0) ∧
      0 ≤ u.eta) ∧
    ((parse_line
        (parse_line
          (parse_line (ProgressParser.new 20 "t") "out_time_us=5000000".toList 0).2
          "speed=2.0x".toList 0).2
        "progress=continue".toList 0).1.map
      (fun u => (u.percent, u.current_time, u.eta, u.speed)) =
      some (25, 5, 15/2, 2)) := by
  refine ⟨fun st => rfl, ?_, ?_⟩
  · intro st u h
    rw [build_progress_update] at h
    obtain rfl := (Option.some.inj h).symm
    refine ⟨?_, ?_, ?_, rfl, rfl, ?_, ?_, ?_⟩
    · intro ht
      simp only [ht, if_pos, fminQ_eq_min, min_comm]
    · intro ht
      simp [ht]
    · intro habs
      have hout : outTimeUs st = 0 := by
        rw [outTimeUs, habs]
        rfl
      constructor
      · by_cases ht : 0 < st.total_duration_us <;>
          simp [ht, hout, fminQ_eq_min]
      · simp [microseconds_to_seconds, hout]
    · intro hs
      simp only at hs ⊢
      rw [if_pos hs, fmaxQ_eq_max, max_comm]
    · intro hs
      simp only at hs ⊢
      rw [if_neg (not_lt.mpr hs)]
    · simp only
      by_cases hs : 0 < speedVal st
      · rw [if_pos hs, fmaxQ_eq_max]
        exact le_max_right _ _
      · rw [if_neg hs]
  · have e1 :
        (parse_line
            (parse_line
              (parse_line (ProgressParser.new 20 "t") "out_time_us=5000000".toList 0).2
              "speed=2.0x".toList 0).2
            "progress=continue".toList 0).1 =
          build_progress_update
            { total_duration_us := satI64 (20 * 1000000)
              task_id := "t"
              last_emit_time := -200
              current_values :=
                [("speed".toList, "2.0x".toList),
                  ("out_time_us".toList, "5000000".toList)] } := rfl
    rw [e1]
    have hsat : satI64 (20 * 1000000) = 20000000 := by
      norm_num [satI64, truncQ]
    have hout :
        outTimeUs
          { total_duration_us := satI64 (20 * 1000000)
            task_id := "t"
            last_emit_time := -200
            current_values :=
              [("speed".toList, "2.0x".toList),
                ("out_time_us".toList, "5000000".toList)] } = 5000000 := rfl
    have hspeed :
        speedVal
          { total_duration_us := satI64 (20 * 1000000)
            task_id := "t"
            last_emit_time := -200
            current_values :=
              [("speed".toList, "2.0x".toList),
                ("out_time_us".toList, "5000000".toList)] } =
          ((2 : ℕ) : ℚ) + ((0 : ℕ) : ℚ) / 10 ^ 1 := rfl
    rw [build_progress_update, hout, hspeed, hsat]
    norm_num [fminQ, fmaxQ, microseconds_to_seconds]

/-- Witness for C6: the zero-total-duration implication instantiated at
a concrete parser state. -/
theorem progress_burst_formulas_witness :
    (({ total_duration_us := 0, task_id := "w", last_emit_time := -200,
        current_values := [] } : ProgressParser).total_duration_us = 0) ∧
    ((build_progress_update
      { total_duration_us := 0, task_id := "w", last_emit_time := -200,
        current_values := [] }).getD
        { task_id := "", percent := 1, speed := 0, current_time := 0,
          eta := 0, output_size := 0, frame := 0, fps := 0 }).percent = 0 :=
  ⟨rfl,
    ((progress_burst_formulas.2.1
      { total_duration_us := 0, task_id := "w", last_emit_time := -200,
        current_values := [] } _ rfl).2.1 rfl)⟩

/-- C7.  On any sentinel line `progress=<value>` (value without leading
or trailing whitespace, stated via the two `dropWhile` hypotheses), a
snapshot is returned iff at least 200 ms have elapsed since the last
returned snapshot OR the value is `end` — so the final `progress=end`
snapshot is never dropped by the throttle — and in every case the
key-value accumulator is cleared, whether or not the burst was
emitted. -/
theorem parse_line_sentinel (st : ProgressParser) (v : List Char) (now : ℤ)
    (h1 : v.dropWhile Char.isWhitespace = v)
    (h2 : v.reverse.dropWhile Char.isWhitespace = v.reverse) :
    ((parse_line st ("progress=".toList ++ v) now).1.isSome = true ↔
      (200 ≤ now - st.last_emit_time ∨ v = "end".toList)) ∧
    (parse_line st ("progress=".toList ++ v) now).2.current_values = [] := by
  have hdlit : ("progress=".toList).dropWhile Char.isWhitespace
      = "progress=".toList := by decide
  have htrim : trimWs ("progress=".toList ++ v) = "progress=".toList ++ v := by
    unfold trimWs
    rw [List.dropWhile_append, hdlit]
    have hne : ("progress=".toList).isEmpty = false := rfl
    rw [hne]
    simp only [Bool.false_eq_true, if_false, List.reverse_append]
    rw [List.dropWhile_append, h2]
    by_cases hv : v = []
    · subst hv
      simp only [List.reverse_nil, List.isEmpty_nil, if_true]
      have : ("progress=".toList).reverse.dropWhile Char.isWhitespace
          = ("progress=".toList).reverse := by decide
      rw [this]
      simp
    · have : v.reverse.isEmpty = false := by
        cases v with
        | nil => exact absurd rfl hv
        | cons a as => simp
      rw [this]
      simp
  have hsplit : splitEq? ("progress=".toList ++ v)
      = some ("progress".toList, v) := by
    unfold splitEq?
    have hlit : "progress=".toList = "progress".toList ++ ['='] := rfl
    have htw : ("progress=".toList ++ v).takeWhile (fun c => c ≠ '=')
        = "progress".toList := by
      rw [List.takeWhile_append]
      have h8 : (("progress=".toList).takeWhile fun c => c ≠ '=')
          = "progress".toList := by decide
      rw [h8]
      simp
    have hlen : ("progress".toList).length = 8 := rfl
    have hlen9 : ("progress=".toList).length = 9 := rfl
    simp only [htw]
    rw [if_neg (by rw [hlen, List.length_append, hlen9]; omega)]
    rw [show ("progress".toList).length + 1 = 9 by rw [hlen]]
    rw [List.drop_left' hlen9]
  have hvalue : trimWs v = v := by
    unfold trimWs
    rw [h1, h2, List.reverse_reverse]
  have hkey : trimWs ("progress".toList) = "progress".toList := by decide
  have hne2 : ("progress=".toList ++ v) ≠ [] := by
    simp
  rw [parse_line, htrim, if_neg (by simp), hsplit]
  simp only [hkey, hvalue, if_pos rfl]
  by_cases hthr : 200 ≤ now - st.last_emit_time
  · rw [if_pos hthr]
    simp [hthr, build_progress_update]
  · rw [if_neg hthr]
    by_cases hend : v = "end".toList
    · rw [if_pos hend]
      simp [hthr, hend, build_progress_update]
    · rw [if_neg hend]
      have hend' : ¬ v = ['e', 'n', 'd'] := by simpa using hend
      simp [hthr, hend']

/-- Witness for C7: a throttled (`now − last = 0 < 200`) `progress=end`
sentinel still returns a snapshot, and the accumulator is cleared. -/
theorem parse_line_sentinel_witness :
    ((parse_line
        { total_duration_us := 20000000, task_id := "w", last_emit_time := 0,
          current_values := [("out_time_us".toList, "5000000".toList)] }
        ("progress=".toList ++ "end".toList) 0).1.isSome = true ↔
      ((200 : ℤ) ≤ 0 - 0 ∨ "end".toList = "end".toList)) ∧
    (parse_line
        { total_duration_us := 20000000, task_id := "w", last_emit_time := 0,
          current_values := [("out_time_us".toList, "5000000".toList)] }
        ("progress=".toList ++ "end".toList) 0).2.current_values = [] :=
  parse_line_sentinel _ "end".toList 0 (by decide) (by decide)

/-! ## Task queue (`engine/queue.rs`)

`HashMap<String, CommandChild>` is modelled as an association list with
unique-key lookup semantics; `HashSet<String>` as a list with
membership-preserving insert; the kill signal as the returned child
handle.  The queue is generic in the child-handle type. -/

/-- `struct TaskQueue`. -/
structure TaskQueue (Child : Type) where
  running : List (String × Child)
  cancelled : List String

/-- `HashMap::remove`: drop the binding of the key. -/
def removeKey {Child : Type} (m : List (String × Child)) (k : String) :
    List (String × Child) :=
  m.filter fun p => p.1 ≠ k

/-- `HashMap::get`-style lookup used to model `remove`'s return value. -/
def lookupChild {Child : Type} (m : List (String × Child)) (k : String) :
    Option Child :=
  (m.find? fun p => p.1 = k).map fun p => p.2

/-- `HashSet::insert`: add the id if it is not already present. -/
def insertId (s : List String) (id : String) : List String :=
  if id ∈ s then s else id :: s

/-- `TaskQueue::new`. -/
def TaskQueue.new (Child : Type) : TaskQueue Child :=
  { running := [], cancelled := [] }

/-- `TaskQueue::register_child`: `running.insert(task_id, child)`. -/
def TaskQueue.register_child {Child : Type} (q : TaskQueue Child)
    (task_id : String) (child : Child) : TaskQueue Child :=
  { q with running := (task_id, child) :: removeKey q.running task_id }

/-- `TaskQueue::cancel_task` (lines 66–76): on a running id, remove it
from the running map, mark it cancelled, and send the kill signal to the
removed child (returned as the third component); otherwise return the
not-found error and leave the queue untouched. -/
def TaskQueue.cancel_task {Child : Type} (q : TaskQueue Child)
    (task_id : String) : Except String Unit × TaskQueue Child × Option Child :=
  match lookupChild q.running task_id with
  | some child =>
    (Except.ok (),
      { q with
        running := removeKey q.running task_id
        cancelled := insertId q.cancelled task_id },
      some child)
  | none =>
    (Except.error ("任务 " ++ task_id ++ " 不存在或已完成"), q, none)

/-- `TaskQueue::is_cancelled`. -/
def TaskQueue.is_cancelled {Child : Type} (q : TaskQueue Child)
    (task_id : String) : Bool :=
  task_id ∈ q.cancelled

/-- `TaskQueue::cleanup`. -/
def TaskQueue.cleanup {Child : Type} (q : TaskQueue Child)
    (task_id : String) : TaskQueue Child :=
  { q with
    running := removeKey q.running task_id
    cancelled := q.cancelled.filter fun s => s ≠ task_id }

/-- C8.  Cancelling an id that is not in the running map returns the
not-found error and leaves the whole queue state (running map and
cancelled set) unchanged, signalling no process; cancelling a running id
succeeds, removes it from the running map, marks it in the cancelled
set, and sends the kill signal to exactly the registered child. -/
theorem cancel_task_spec {Child : Type} (q : TaskQueue Child) (id : String) :
    (lookupChild q.running id = none →
      (∃ e, (q.cancel_task id).1 = Except.error e) ∧
      (q.cancel_task id).2.1 = q ∧
      (q.cancel_task id).2.2 = none) ∧
    (∀ c, lookupChild q.running id = some c →
      (q.cancel_task id).1 = Except.ok () ∧
      lookupChild (q.cancel_task id).2.1.running id = none ∧
      id ∈ (q.cancel_task id).2.1.cancelled ∧
      (q.cancel_task id).2.2 = some c) := by
  constructor
  · intro hnone
    rw [TaskQueue.cancel_task, hnone]
    exact ⟨⟨_, rfl⟩, rfl, rfl⟩
  · intro c hsome
    rw [TaskQueue.cancel_task, hsome]
    refine ⟨rfl, ?_, ?_, rfl⟩
    · show lookupChild (removeKey q.running id) id = none
      rw [lookupChild]
      have : (removeKey q.running id).find? (fun p => p.1 = id) = none := by
        rw [List.find?_eq_none]
        intro p hp
        have := List.of_mem_filter hp
        simpa using this
      rw [this]
      rfl
    · show id ∈ insertId q.cancelled id
      rw [insertId]
      by_cases h : id ∈ q.cancelled
      · rwa [if_pos h]
      · rw [if_neg h]
        exact List.mem_cons_self _ _

/-- Witness for C8: both branches at concrete queues over `Child := ℕ`:
cancelling the unknown id `"b"` on a queue running only `"a"`, and
cancelling the running id `"a"` itself. -/
theorem cancel_task_spec_witness :
    ((∃ e, (TaskQueue.cancel_task
        ({ running := [("a", (7 : ℕ))], cancelled := [] }) "b").1 =
        Except.error e) ∧
      (TaskQueue.cancel_task
        ({ running := [("a", (7 : ℕ))], cancelled := [] } : TaskQueue ℕ) "b").2.1 =
        { running := [("a", 7)], cancelled := [] } ∧
      (TaskQueue.cancel_task
        ({ running := [("a", (7 : ℕ))], cancelled := [] }) "b").2.2 = none) ∧
    ((TaskQueue.cancel_task
        ({ running := [("a", (7 : ℕ))], cancelled := [] }) "a").1 =
        Except.ok () ∧
      lookupChild (TaskQueue.cancel_task
        ({ running := [("a", (7 : ℕ))], cancelled := [] }) "a").2.1.running "a" =
        none ∧
      "a" ∈ (TaskQueue.cancel_task
        ({ running := [("a", (7 : ℕ))], cancelled := [] }) "a").2.1.cancelled ∧
      (TaskQueue.cancel_task
        ({ running := [("a", (7 : ℕ))], cancelled := [] }) "a").2.2 = some 7) :=
  ⟨(cancel_task_spec { running := [("a", 7)], cancelled := [] } "b").1 rfl,
    (cancel_task_spec { running := [("a", 7)], cancelled := [] } "a").2 7 rfl⟩

/-! ## Process termination handling (`engine/process.rs`, lines 91–148)

The `CommandEvent::Terminated` branch of `run_ffmpeg`'s event loop is a
pure decision given the registry's cancellation flag, the exit code, the
buffered stderr tail and the probed output size; it is embedded as
`handleTerminated`.  I/O-provided values (`get_file_size`, elapsed time)
are parameters. -/

/-- `enum TaskStatus` (`models/task.rs`). -/
inductive TaskStatus where
  | Pending
  | Running
  | Completed
  | Cancelled
  | Failed
deriving Repr, DecidableEq

/-- `struct TaskResult` (`models/task.rs`). -/
structure TaskResult where
  task_id : String
  status : TaskStatus
  output_path : Option String
  output_size : Option ℕ
  elapsed : Option ℚ
  error : Option String
deriving Repr, DecidableEq

/-- `enum TaskEvent` (`models/task.rs`), the variants emitted at
termination. -/
inductive TaskEvent where
  | Started (task_id : String) (total_duration : ℚ)
  | Progress (update : ProgressUpdate)
  | Completed (task_id : String) (output_path : String) (output_size : ℕ)
      (elapsed : ℚ)
  | Failed (task_id : String) (error : String)
  | Cancelled (task_id : String)

/-- Lowercase a character list (`str::to_lowercase`, ASCII fragment). -/
def lowerChars (cs : List Char) : List Char :=
  cs.map Char.toLower

/-- Is `needle` a contiguous substring of `hay` (`str::contains`)? -/
def containsSub (hay needle : List Char) : Bool :=
  hay.tails.any fun t => needle.isPrefixOf t

/-- Split a character list at a separator character (model of
`str::lines` core splitting; good enough for `\n`-separated logs). -/
def splitOnChar (c : Char) : List Char → List (List Char)
  | [] => [[]]
  | x :: xs =>
    let r := splitOnChar c xs
    if x = c then [] :: r else (x :: r.headD []) :: r.tail

/-- `str::lines` on a character list: split on `'\n'`, dropping a final
empty segment produced by a trailing newline, and stripping one trailing
`'\r'` from each line. -/
def linesOf (cs : List Char) : List (List Char) :=
  let segs := splitOnChar '\n' cs
  let segs := if segs.getLast? = some [] then segs.dropLast else segs
  segs.map fun l => if l.getLast? = some '\r' then l.dropLast else l

/-- The error keywords scanned for, lowercase (lines 239–244). -/
def errorKeywords : List (List Char) :=
  ["error".toList, "invalid".toList, "no such".toList,
    "permission denied".toList, "not found".toList]

/-- `extract_error_message` (lines 234–251): scan the last 20 stderr
lines from the end for one containing an error keyword
(case-insensitively); fall back to the generic exit-code message. -/
def extract_error_message (stderr : List Char) (exit_code : ℤ) : List Char :=
  let lines := (linesOf stderr).reverse.take 20
  match lines.find? (fun line =>
    errorKeywords.any fun kw => containsSub (lowerChars line) kw) with
  | some line => trimWs line
  | none => ("ffmpeg 进程退出，退出码: ".toList) ++ (toString exit_code).toList

/-- The `CommandEvent::Terminated` handling of `run_ffmpeg`
(lines 91–148): consult the cancellation flag first; then exit code 0
means success (with the probed output size), anything else — including a
missing code, defaulted to `-1` — means failure with the extracted
stderr message. -/
def handleTerminated (task_id : String) (is_cancelled : Bool)
    (code : Option ℤ) (stderr_buffer : List Char) (output_path : String)
    (probed_size : ℕ) (elapsed : ℚ) : TaskEvent × TaskResult :=
  if is_cancelled then
    (TaskEvent.Cancelled task_id,
      { task_id := task_id
        status := TaskStatus.Cancelled
        output_path := none
        output_size := none
        elapsed := some elapsed
        error := none })
  else
    let exit_code := code.getD (-1)
    if exit_code = 0 then
      (TaskEvent.Completed task_id output_path probed_size elapsed,
        { task_id := task_id
          status := TaskStatus.Completed
          output_path := some output_path
          output_size := some probed_size
          elapsed := some elapsed
          error := none })
    else
      let error_msg := extract_error_message stderr_buffer exit_code
      (TaskEvent.Failed task_id (String.mk error_msg),
        { task_id := task_id
          status := TaskStatus.Failed
          output_path := none
          output_size := none
          elapsed := some elapsed
          error := some (String.mk error_msg) })

/-- C9.  At process termination the cancellation flag is consulted
first: when set, both the emitted event and the returned result are
`Cancelled`, whatever the exit code; only when it is clear does exit
code 0 produce a `Completed` event/result carrying the output path and
size, and any other exit code (or a missing one) a `Failed` event/result
carrying the message extracted from the buffered stderr tail. -/
theorem terminated_outcome (tid : String) (cancelled : Bool)
    (code : Option ℤ) (stderr : List Char) (out : String) (sz : ℕ) (el : ℚ) :
    (cancelled = true →
      (handleTerminated tid cancelled code stderr out sz el).1 =
        TaskEvent.Cancelled tid ∧
      (handleTerminated tid cancelled code stderr out sz el).2.status =
        TaskStatus.Cancelled) ∧
    (cancelled = false →
      (code = some 0 →
        (handleTerminated tid cancelled code stderr out sz el).1 =
          TaskEvent.Completed tid out sz el ∧
        (handleTerminated tid cancelled code stderr out sz el).2 =
          { task_id := tid, status := TaskStatus.Completed,
            output_path := some out, output_size := some sz,
            elapsed := some el, error := none }) ∧
      (∀ ec, code = some ec → ec ≠ 0 →
        (handleTerminated tid cancelled code stderr out sz el).1 =
          TaskEvent.Failed tid
            (String.mk (extract_error_message stderr ec)) ∧
        (handleTerminated tid cancelled code stderr out sz el).2.status =
          TaskStatus.Failed ∧
        (handleTerminated tid cancelled code stderr out sz el).2.error =
          some (String.mk (extract_error_message stderr ec))) ∧
      (code = none →
        (handleTerminated tid cancelled code stderr out sz el).2.status =
          TaskStatus.Failed)) := by
  constructor
  · intro hc
    subst hc
    exact ⟨rfl, rfl⟩
  · intro hc
    subst hc
    refine ⟨?_, ?_, ?_⟩
    · intro h0
      subst h0
      exact ⟨rfl, rfl⟩
    · intro ec hec hne
      subst hec
      rw [handleTerminated]
      simp only [Bool.false_eq_true, if_false, Option.getD_some]
      rw [if_neg hne]
      exact ⟨rfl, rfl, rfl⟩
    · intro hn
      subst hn
      rw [handleTerminated]
      norm_num

/-- Witness for C9: a cancelled termination with exit code 0 still
reports `Cancelled`, and a clean exit code 0 without cancellation
reports `Completed`. -/
theorem terminated_outcome_witness :
    ((handleTerminated "j" true (some 0) [] "out.mp4" 42 (3/2)).1 =
        TaskEvent.Cancelled "j" ∧
      (handleTerminated "j" true (some 0) [] "out.mp4" 42 (3/2)).2.status =
        TaskStatus.Cancelled) ∧
    ((handleTerminated "j" false (some 0) [] "out.mp4" 42 (3/2)).1 =
        TaskEvent.Completed "j" "out.mp4" 42 (3/2) ∧
      (handleTerminated "j" false (some 0) [] "out.mp4" 42 (3/2)).2 =
        { task_id := "j", status := TaskStatus.Completed,
          output_path := some "out.mp4", output_size := some 42,
          elapsed := some (3/2), error := none }) :=
  ⟨(terminated_outcome "j" true (some 0) [] "out.mp4" 42 (3/2)).1 rfl,
    ((terminated_outcome "j" false (some 0) [] "out.mp4" 42 (3/2)).2 rfl).1 rfl⟩

/-! ## Time format helpers (`utils/time.rs`)

Timestamps are character lists.  `format!("{:02}")`-style rendering is
`padZeros`/`natToChars`; fuel-based decimal rendering keeps everything
structurally recursive.

Caveat: these definitions follow the file's exact-rational convention
for `f64`, so they do not capture the IEEE-754 rounding of the
parse-back sum `hours*3600.0 + minutes*60.0 + seconds` (near
`2³² · 3600` seconds, one `f64` ulp is about 1.95 ms).  Millisecond-
scale error bounds on the round trip therefore cannot be read off this
model; `ts2s_format` below characterizes the parser on rendered
timestamps in exact arithmetic only. -/

/-- One decimal digit as a character (the digit case of Rust's integer
`Display`; callers always pass `n < 10`). -/
def digitToChar (n : ℕ) : Char :=
  match n with
  | 0 => '0' | 1 => '1' | 2 => '2' | 3 => '3' | 4 => '4'
  | 5 => '5' | 6 => '6' | 7 => '7' | 8 => '8' | _ => '9'

/-- Fuel-based decimal rendering, most significant digit first. -/
def natToCharsAux (fuel n : ℕ) : List Char :=
  match fuel with
  | 0 => []
  | f + 1 =>
    if n < 10 then [digitToChar n]
    else natToCharsAux f (n / 10) ++ [digitToChar (n % 10)]

/-- Decimal rendering of a natural number (`format!("{}", n)`). -/
def natToChars (n : ℕ) : List Char :=
  natToCharsAux (n + 1) n

/-- Zero-pad on the left to width `w` (`format!("{:0w}", n)`). -/
def padZeros (w : ℕ) (cs : List Char) : List Char :=
  List.replicate (w - cs.length) '0' ++ cs

/-- `seconds_to_timestamp` (`utils/time.rs` lines 22–29):
`HH:MM:SS.mmm` from `max(seconds, 0)`, with each component obtained by
an `f64 % / as u32` computation. -/
def seconds_to_timestamp (seconds : ℚ) : List Char :=
  let total_secs := fmaxQ seconds 0
  let hours := satU32 (total_secs / 3600)
  let minutes := satU32 (fmodQ total_secs 3600 / 60)
  let secs := satU32 (fmodQ total_secs 60)
  let millis := satU32 (fmodQ total_secs 1 * 1000)
  padZeros 2 (natToChars hours) ++ [':'] ++ padZeros 2 (natToChars minutes) ++
    [':'] ++ padZeros 2 (natToChars secs) ++ ['.'] ++ padZeros 3 (natToChars millis)

/-- `timestamp_to_seconds` (`utils/time.rs` lines 44–69): plain number,
`MM:SS` or `HH:MM:SS[.frac]`, every piece parsed as `f64` with fallback
0. -/
def timestamp_to_seconds (timestamp : List Char) : ℚ :=
  let trimmed := trimWs timestamp
  if ':' ∈ trimmed then
    match splitOnChar ':' trimmed with
    | [h, m, s] =>
      ((parseF64? h).getD 0) * 3600 + ((parseF64? m).getD 0) * 60 +
        ((parseF64? s).getD 0)
    | [m, s] => ((parseF64? m).getD 0) * 60 + ((parseF64? s).getD 0)
    | _ => 0
  else (parseF64? trimmed).getD 0

lemma digitToChar_isDigit (n : ℕ) (h : n < 10) :
    isDigitCh (digitToChar n) = true := by
  interval_cases n <;> rfl

lemma digitToChar_val (n : ℕ) (h : n < 10) :
    (digitToChar n).toNat - 48 = n := by
  interval_cases n <;> rfl

lemma digitsVal_append_digit (xs : List Char) (c : Char) :
    digitsVal (xs ++ [c]) = digitsVal xs * 10 + (c.toNat - 48) := by
  simp [digitsVal, List.foldl_append]

lemma natToCharsAux_spec (f : ℕ) :
    ∀ n, n < f →
      (natToCharsAux f n).all isDigitCh = true ∧ natToCharsAux f n ≠ [] ∧
      digitsVal (natToCharsAux f n) = n := by
  induction f with
  | zero => intro n hn; omega
  | succ f ih =>
    intro n hn
    rw [natToCharsAux]
    by_cases h10 : n < 10
    · rw [if_pos h10]
      refine ⟨?_, by simp, ?_⟩
      · simp [digitToChar_isDigit n h10]
      · simp [digitsVal, digitToChar_val n h10]
    · rw [if_neg h10]
      have hrec : n / 10 < f := by omega
      obtain ⟨hall, hne, hval⟩ := ih (n / 10) hrec
      refine ⟨?_, by simp, ?_⟩
      · rw [List.all_append, hall]
        simp [digitToChar_isDigit (n % 10) (Nat.mod_lt n (by norm_num))]
      · rw [digitsVal_append_digit, hval,
          digitToChar_val (n % 10) (Nat.mod_lt n (by norm_num))]
        omega

lemma natToChars_spec (n : ℕ) :
    (natToChars n).all isDigitCh = true ∧ natToChars n ≠ [] ∧
    digitsVal (natToChars n) = n :=
  natToCharsAux_spec (n + 1) n (Nat.lt_succ_self n)

lemma foldl_digits_replicate_zero (k : ℕ) :
    List.foldl (fun a c => a * 10 + (c.toNat - 48)) 0
      (List.replicate k '0') = 0 := by
  induction k with
  | zero => rfl
  | succ k ih => rw [List.replicate_succ]; simpa using ih

lemma digitsVal_padZeros (w : ℕ) (cs : List Char) :
    digitsVal (padZeros w cs) = digitsVal cs := by
  rw [padZeros, digitsVal, List.foldl_append, foldl_digits_replicate_zero]
  rfl

lemma padZeros_all_digits {w : ℕ} {cs : List Char}
    (h : cs.all isDigitCh = true) : (padZeros w cs).all isDigitCh = true := by
  rw [padZeros, List.all_append, h]
  have : (List.replicate (w - cs.length) '0').all isDigitCh = true := by
    simp only [List.all_eq_true]
    intro x hx
    rw [List.eq_of_mem_replicate hx]
    rfl
  simp [this]

lemma padZeros_ne_nil {w : ℕ} {cs : List Char} (h : cs ≠ []) :
    padZeros w cs ≠ [] := by
  rw [padZeros]
  simp [h]

lemma isDigitCh_ne {c : Char} (h : isDigitCh c = true) :
    c ≠ '-' ∧ c ≠ '+' ∧ c ≠ '.' ∧ c ≠ ':' ∧ c.isWhitespace = false := by
  refine ⟨?_, ?_, ?_, ?_, ?_⟩
  · intro he; rw [he] at h; exact absurd h (by decide)
  · intro he; rw [he] at h; exact absurd h (by decide)
  · intro he; rw [he] at h; exact absurd h (by decide)
  · intro he; rw [he] at h; exact absurd h (by decide)
  · have hsp : c ≠ ' ' := by intro he; rw [he] at h; exact absurd h (by decide)
    have hta : c ≠ '\t' := by intro he; rw [he] at h; exact absurd h (by decide)
    have hcr : c ≠ '\r' := by intro he; rw [he] at h; exact absurd h (by decide)
    have hlf : c ≠ '\n' := by intro he; rw [he] at h; exact absurd h (by decide)
    rw [Char.isWhitespace]
    simp [hsp, hta, hcr, hlf]

lemma head_digit {cs : List Char} (hne : cs ≠ [])
    (hall : cs.all isDigitCh = true) : isDigitCh (cs.headD ' ') = true := by
  cases cs with
  | nil => exact absurd rfl hne
  | cons a l =>
    rw [List.all_cons, Bool.and_eq_true_iff] at hall
    simpa using hall.1

lemma takeWhile_not_dot {cs : List Char} (hall : cs.all isDigitCh = true) :
    (cs.takeWhile fun c => c ≠ '.') = cs := by
  rw [List.all_eq_true] at hall
  simp only [List.takeWhile_eq_self_iff]
  intro x hx
  simp [(isDigitCh_ne (hall x hx)).2.2.1]

lemma parseF64_digits {cs : List Char} (hne : cs ≠ [])
    (hall : cs.all isDigitCh = true) :
    parseF64? cs = some (digitsVal cs) := by
  have hd := isDigitCh_ne (head_digit hne hall)
  have hns : ¬ (cs.headD ' ' = '-' ∨ cs.headD ' ' = '+') := by
    rintro (he | he)
    exacts [hd.1 he, hd.2.1 he]
  simp only [parseF64?, if_neg hns, if_neg hd.1, takeWhile_not_dot hall,
    List.drop_length, List.tail_nil]
  rw [if_pos ⟨hall, by simp, by simp, by simp [hne]⟩]
  simp [digitsVal]

lemma parseF64_digits_frac {a b : List Char} (hane : a ≠ [])
    (haall : a.all isDigitCh = true) (hball : b.all isDigitCh = true) :
    parseF64? (a ++ '.' :: b) =
      some ((digitsVal a : ℚ) + (digitsVal b : ℚ) / 10 ^ b.length) := by
  have hhead : (a ++ '.' :: b).headD ' ' = a.headD ' ' := by
    cases a with
    | nil => exact absurd rfl hane
    | cons x l => rfl
  have hd := isDigitCh_ne (head_digit hane haall)
  have hns : ¬ ((a ++ '.' :: b).headD ' ' = '-' ∨
      (a ++ '.' :: b).headD ' ' = '+') := by
    rw [hhead]
    rintro (he | he)
    exacts [hd.1 he, hd.2.1 he]
  have htw : ((a ++ '.' :: b).takeWhile fun c => c ≠ '.') = a := by
    rw [List.takeWhile_append, takeWhile_not_dot haall, if_pos rfl]
    simp [List.takeWhile_cons]
  have hdrop : (a ++ '.' :: b).drop a.length = '.' :: b :=
    List.drop_left a ('.' :: b)
  simp only [parseF64?, if_neg hns, htw, hdrop, List.tail_cons]
  rw [if_pos ⟨haall, hball, Or.inr rfl, by simp [hane]⟩]
  rw [hhead, if_neg hd.1]

lemma trimWs_eq_self {cs : List Char}
    (h : ∀ x ∈ cs, x.isWhitespace = false) : trimWs cs = cs := by
  have hdrop : ∀ l : List Char, (∀ x ∈ l, x.isWhitespace = false) →
      l.dropWhile Char.isWhitespace = l := by
    intro l hl
    induction l with
    | nil => rfl
    | cons a t ih =>
      rw [List.dropWhile_cons, hl a (List.mem_cons_self a t)]
      simp [ih fun x hx => hl x (List.mem_cons_of_mem a hx)]
  rw [trimWs, hdrop cs h, hdrop cs.reverse fun x hx => h x (List.mem_reverse.mp hx),
    List.reverse_reverse]

lemma cons_headD_tail {α : Type} {l : List α} (h : l ≠ []) (d : α) :
    l.headD d :: l.tail = l := by
  cases l with
  | nil => exact absurd rfl h
  | cons a t => rfl

lemma splitOnChar_ne_nil (c : Char) (l : List Char) : splitOnChar c l ≠ [] := by
  cases l with
  | nil => simp [splitOnChar]
  | cons x xs =>
    rw [splitOnChar]
    by_cases h : x = c <;> simp [h]

lemma splitOnChar_append_no_sep {c : Char} (a rest : List Char)
    (ha : ∀ x ∈ a, x ≠ c) :
    splitOnChar c (a ++ rest) =
      (a ++ (splitOnChar c rest).headD []) :: (splitOnChar c rest).tail := by
  induction a with
  | nil =>
    simp only [List.nil_append]
    exact (cons_headD_tail (splitOnChar_ne_nil c rest) []).symm
  | cons x t ih =>
    have hx : x ≠ c := ha x (List.mem_cons_self x t)
    have ht : ∀ y ∈ t, y ≠ c := fun y hy => ha y (List.mem_cons_of_mem x hy)
    rw [List.cons_append, splitOnChar]
    simp only [if_neg hx, ih ht]
    simp

lemma splitOnChar_single {c : Char} (a : List Char) (ha : ∀ x ∈ a, x ≠ c) :
    splitOnChar c a = [a] := by
  have := splitOnChar_append_no_sep a [] ha
  simpa [splitOnChar] using this

lemma splitOnChar_three {c : Char} (A B C : List Char)
    (hA : ∀ x ∈ A, x ≠ c) (hB : ∀ x ∈ B, x ≠ c) (hC : ∀ x ∈ C, x ≠ c) :
    splitOnChar c (A ++ c :: (B ++ c :: C)) = [A, B, C] := by
  have hC1 : splitOnChar c (c :: C) = [[], C] := by
    rw [splitOnChar]
    simp [splitOnChar_single C hC]
  have hBC : splitOnChar c (B ++ c :: C) = [B, C] := by
    rw [splitOnChar_append_no_sep B (c :: C) hB, hC1]
    simp
  have hCBC : splitOnChar c (c :: (B ++ c :: C)) = [[], B, C] := by
    rw [splitOnChar]
    simp [hBC]
  rw [splitOnChar_append_no_sep A (c :: (B ++ c :: C)) hA, hCBC]
  simp

lemma natToCharsAux_length_le (f : ℕ) :
    ∀ n k, n < f → n < 10 ^ k → 1 ≤ k → (natToCharsAux f n).length ≤ k := by
  induction f with
  | zero => intro n k hn; omega
  | succ f ih =>
    intro n k hn hk hk1
    rw [natToCharsAux]
    by_cases h10 : n < 10
    · rw [if_pos h10]
      simpa using hk1
    · rw [if_neg h10]
      have hk2 : 2 ≤ k := by
        by_contra hlt
        have : k = 1 := by omega
        subst this
        simp at hk
        omega
      have hdiv : n / 10 < 10 ^ (k - 1) := by
        rw [Nat.div_lt_iff_lt_mul (by norm_num)]
        calc n < 10 ^ k := hk
        _ = 10 ^ (k - 1) * 10 := by
            rw [← pow_succ]
            congr 1
            omega
      have := ih (n / 10) (k - 1) (by omega) hdiv (by omega)
      rw [List.length_append]
      simp only [List.length_singleton]
      omega

lemma padZeros_length_eq {w : ℕ} {cs : List Char} (h : cs.length ≤ w) :
    (padZeros w cs).length = w := by
  rw [padZeros, List.length_append, List.length_replicate]
  omega

/-- Parsing the rendered `HH:MM:SS.mmm` string recovers
`h·3600 + m·60 + s + ms/1000` exactly (for `ms < 1000`; the other
components may be arbitrarily large, the parser does not care about
digit counts). -/
lemma ts2s_format (h m s ms : ℕ) (hms : ms < 1000) :
    timestamp_to_seconds
      (padZeros 2 (natToChars h) ++ [':'] ++ padZeros 2 (natToChars m) ++
        [':'] ++ padZeros 2 (natToChars s) ++ ['.'] ++ padZeros 3 (natToChars ms)) =
      (h : ℚ) * 3600 + (m : ℚ) * 60 + ((s : ℚ) + (ms : ℚ) / 1000) := by
  obtain ⟨hhall, hhne, hhval⟩ := natToChars_spec h
  obtain ⟨hmall, hmne, hmval⟩ := natToChars_spec m
  obtain ⟨hsall, hsne, hsval⟩ := natToChars_spec s
  obtain ⟨hmsall, hmsne, hmsval⟩ := natToChars_spec ms
  set A := padZeros 2 (natToChars h) with hA
  set B := padZeros 2 (natToChars m) with hB
  set S2 := padZeros 2 (natToChars s) with hS2
  set MS := padZeros 3 (natToChars ms) with hMS
  have hAall : A.all isDigitCh = true := padZeros_all_digits hhall
  have hBall : B.all isDigitCh = true := padZeros_all_digits hmall
  have hS2all : S2.all isDigitCh = true := padZeros_all_digits hsall
  have hMSall : MS.all isDigitCh = true := padZeros_all_digits hmsall
  have hAne : A ≠ [] := padZeros_ne_nil hhne
  have hBne : B ≠ [] := padZeros_ne_nil hmne
  have hS2ne : S2 ≠ [] := padZeros_ne_nil hsne
  have hMSlen : MS.length = 3 := by
    refine padZeros_length_eq (natToCharsAux_length_le _ _ 3 (Nat.lt_succ_self ms) ?_ (by omega))
    simpa using hms
  have hshape :
      A ++ [':'] ++ B ++ [':'] ++ S2 ++ ['.'] ++ MS =
        A ++ ':' :: (B ++ ':' :: (S2 ++ '.' :: MS)) := by
    simp [List.append_assoc]
  rw [hshape]
  have hnws : ∀ x ∈ A ++ ':' :: (B ++ ':' :: (S2 ++ '.' :: MS)),
      x.isWhitespace = false := by
    intro x hx
    simp only [List.mem_append, List.mem_cons] at hx
    rw [List.all_eq_true] at hAall hBall hS2all hMSall
    rcases hx with hx | hx | hx
    · exact (isDigitCh_ne (hAall x hx)).2.2.2.2
    · subst hx; rfl
    · rcases hx with hx | hx | hx
      · exact (isDigitCh_ne (hBall x hx)).2.2.2.2
      · subst hx; rfl
      · rcases hx with hx | hx | hx
        · exact (isDigitCh_ne (hS2all x hx)).2.2.2.2
        · subst hx; rfl
        · exact (isDigitCh_ne (hMSall x hx)).2.2.2.2
  rw [timestamp_to_seconds]
  rw [trimWs_eq_self hnws]
  rw [if_pos (by simp)]
  have hAne_colon : ∀ x ∈ A, x ≠ ':' := by
    rw [List.all_eq_true] at hAall
    exact fun x hx => (isDigitCh_ne (hAall x hx)).2.2.2.1
  have hBne_colon : ∀ x ∈ B, x ≠ ':' := by
    rw [List.all_eq_true] at hBall
    exact fun x hx => (isDigitCh_ne (hBall x hx)).2.2.2.1
  have hSne_colon : ∀ x ∈ S2 ++ '.' :: MS, x ≠ ':' := by
    intro x hx
    simp only [List.mem_append, List.mem_cons] at hx
    rw [List.all_eq_true] at hS2all hMSall
    rcases hx with hx | hx | hx
    · exact (isDigitCh_ne (hS2all x hx)).2.2.2.1
    · subst hx; decide
    · exact (isDigitCh_ne (hMSall x hx)).2.2.2.1
  rw [splitOnChar_three A B (S2 ++ '.' :: MS) hAne_colon hBne_colon hSne_colon]
  show (parseF64? A).getD 0 * 3600 + (parseF64? B).getD 0 * 60 +
      (parseF64? (S2 ++ '.' :: MS)).getD 0 =
    (h : ℚ) * 3600 + (m : ℚ) * 60 + ((s : ℚ) + (ms : ℚ) / 1000)
  rw [parseF64_digits hAne hAall, parseF64_digits hBne hBall,
    parseF64_digits_frac hS2ne hS2all hMSall]
  rw [hA, hB, hS2, hMS] at *
  rw [digitsVal_padZeros, digitsVal_padZeros, digitsVal_padZeros,
    digitsVal_padZeros, hhval, hmval, hsval, hmsval, hMSlen]
  norm_num

lemma satU32_eq_floor_toNat {q : ℚ} (hq : 0 ≤ q) (hlt : ⌊q⌋ < 4294967296) :
    satU32 q = ⌊q⌋.toNat := by
  rw [satU32, truncQ_eq_floor_of_nonneg hq]
  exact Nat.min_eq_left (by omega)

end Clipforge
